import Mathlib

/-!
Verification of the packet-trace analysis engine of the networking-learning
repository.  Python strings are modeled as `List Char` (so that all string
operations are executable and kernel-reducible), Python ints as `Nat`/`Int`,
Python dicts as insertion-ordered association lists, and Python float
threshold comparisons (`x > n * 0.1`) as the corresponding exact rational
comparisons written over `Nat` (`10 * x > n`).  Python `list.sort` (a stable
sort) is modeled by the stable `List.insertionSort`.
-/

namespace NetSpec

/-- Python `str` modeled as a list of characters. -/
abbrev Str := List Char

/-- Python lexicographic `<` on strings (used by `sorted`). -/
def strLt : Str → Str → Bool
  | [], [] => false
  | [], _ :: _ => true
  | _ :: _, [] => false
  | a :: as, b :: bs => if a < b then true else if b < a then false else strLt as bs

/-- The `≤` induced by `strLt`; Python's stable sort orders by this relation. -/
def strLe (a b : Str) : Bool := !(strLt b a)

theorem strLt_irrefl (a : Str) : strLt a a = false := by
  induction a with
  | nil => rfl
  | cons c cs ih => simp [strLt, ih]

theorem strLt_asymm {a b : Str} (h : strLt a b = true) : strLt b a = false := by
  induction a generalizing b with
  | nil =>
    cases b with
    | nil => simp [strLt] at h
    | cons d ds => rfl
  | cons c cs ih =>
    cases b with
    | nil => simp [strLt] at h
    | cons d ds =>
      simp only [strLt] at h ⊢
      by_cases h1 : c < d
      · have h2 : ¬ d < c := lt_asymm h1
        simp [h1, h2]
      · by_cases h2 : d < c
        · simp [h1, h2] at h
        · simp only [h1, h2, if_false] at h ⊢
          exact ih h

theorem strLt_conn {a b : Str} (h1 : strLt a b = false) (h2 : strLt b a = false) :
    a = b := by
  induction a generalizing b with
  | nil =>
    cases b with
    | nil => rfl
    | cons d ds => simp [strLt] at h1
  | cons c cs ih =>
    cases b with
    | nil => simp [strLt] at h2
    | cons d ds =>
      simp only [strLt] at h1 h2
      by_cases hcd : c < d
      · simp [hcd] at h1
      · by_cases hdc : d < c
        · simp [hdc, lt_asymm hdc] at h2
        · have : c = d := le_antisymm (not_lt.mp hdc) (not_lt.mp hcd)
          subst this
          simp only [lt_irrefl, if_false] at h1 h2
          rw [ih h1 h2]

theorem strLt_trans {a b c : Str} (h1 : strLt a b = true) (h2 : strLt b c = true) :
    strLt a c = true := by
  induction a generalizing b c with
  | nil =>
    cases c with
    | nil =>
      cases b with
      | nil => exact h1
      | cons d ds => simp [strLt] at h2
    | cons e es => rfl
  | cons x xs ih =>
    cases b with
    | nil => simp [strLt] at h1
    | cons y ys =>
      cases c with
      | nil => simp [strLt] at h2
      | cons z zs =>
        simp only [strLt] at h1 h2 ⊢
        by_cases hxy : x < y
        · by_cases hyz : y < z
          · simp [lt_trans hxy hyz]
          · by_cases hzy : z < y
            · simp [hzy] at h2
              exact absurd h2 hyz
            · have : y = z := le_antisymm (not_lt.mp hzy) (not_lt.mp hyz)
              subst this
              simp [hxy]
        · by_cases hyx : y < x
          · simp [hxy, hyx] at h1
          · have hxy2 : x = y := le_antisymm (not_lt.mp hyx) (not_lt.mp hxy)
            subst hxy2
            simp only [lt_irrefl, if_false] at h1
            by_cases hyz : x < z
            · simp [hyz]
            · by_cases hzy : z < x
              · simp [hzy] at h2
                exact absurd h2 hyz
              · have : x = z := le_antisymm (not_lt.mp hzy) (not_lt.mp hyz)
                subst this
                simp only [lt_irrefl, if_false] at h2 ⊢
                exact ih h1 h2

theorem strLe_total (a b : Str) : strLe a b = true ∨ strLe b a = true := by
  by_cases h : strLt b a = true
  · right
    simp [strLe, strLt_asymm h]
  · left
    simp [strLe, eq_false_of_ne_true h]

theorem strLe_trans {a b c : Str} (h1 : strLe a b = true) (h2 : strLe b c = true) :
    strLe a c = true := by
  simp only [strLe, Bool.not_eq_true'] at h1 h2 ⊢
  cases hca : strLt c a with
  | false => rfl
  | true =>
    exfalso
    cases hbc : strLt b c with
    | true =>
      have := strLt_trans hbc hca
      simp [this] at h1
    | false =>
      have hbceq : b = c := strLt_conn hbc h2
      subst hbceq
      simp [hca] at h1

/-!
## DHCP analyzer (src/modules/02-protocols/dhcp/dhcp-analyzer.py)

`_identify_dora_sequences` groups DHCP messages by client MAC, sorts each
bucket by its (string) timestamp, and scans for the DORA pattern by
appending every pattern-typed message to `current_pattern` and checking the
last four entries for a literal tail match.  Only the three fields the
function reads (`client_mac`, `message_type`, `timestamp`) are modeled.
-/

/-- A DHCP message as consumed by `_identify_dora_sequences`. -/
structure DhcpMsg where
  clientMac : Str
  messageType : Str
  timestamp : Str
deriving DecidableEq, Repr

/-- The DORA pattern `['DHCPDISCOVER', 'DHCPOFFER', 'DHCPREQUEST', 'DHCPACK']`. -/
def doraPattern : List Str :=
  ["DHCPDISCOVER".toList, "DHCPOFFER".toList, "DHCPREQUEST".toList, "DHCPACK".toList]

/-- One identified sequence: `client_mac`, collected `messages`, `complete` flag. -/
structure DoraSeq where
  clientMac : Str
  messages : List DhcpMsg
  complete : Bool
deriving DecidableEq, Repr

/-- Python `lst[-4:]`. -/
def lastN (n : Nat) (l : List α) : List α := l.drop (l.length - n)

/-- The message-scanning loop of `_identify_dora_sequences`: each message
whose type is in the DORA pattern is appended to `current_pattern` and to
the sequence's message list; once the last four pattern entries literally
equal the DORA pattern the sequence is complete and the loop breaks.
Messages of other types are skipped. -/
def doraLoop : List DhcpMsg → List Str → List DhcpMsg → List DhcpMsg × Bool
  | [], _, acc => (acc, false)
  | m :: rest, curPat, acc =>
    if m.messageType ∈ doraPattern then
      let curPat' := curPat ++ [m.messageType]
      let acc' := acc ++ [m]
      if curPat'.length ≥ 4 ∧ lastN 4 curPat' = doraPattern then
        (acc', true)
      else
        doraLoop rest curPat' acc'
    else
      doraLoop rest curPat acc

/-- Grouping step: `client_messages[mac].append(msg)` with dict
insertion-order semantics (new MAC appended at the end). -/
def addToGroup (groups : List (Str × List DhcpMsg)) (mac : Str) (m : DhcpMsg) :
    List (Str × List DhcpMsg) :=
  match groups with
  | [] => [(mac, [m])]
  | (k, ms) :: rest =>
    if k = mac then (k, ms ++ [m]) :: rest else (k, ms) :: addToGroup rest mac m

/-- Group messages by `client_mac`, skipping messages with an empty MAC
(Python truthiness of `msg['client_mac']`). -/
def groupByClient (msgs : List DhcpMsg) : List (Str × List DhcpMsg) :=
  msgs.foldl (fun g m => if m.clientMac = [] then g else addToGroup g m.clientMac m) []

/-- Sorting predicate for `msgs.sort(key=lambda x: x['timestamp'])`. -/
def tsLe (a b : DhcpMsg) : Prop := strLe a.timestamp b.timestamp = true

instance : DecidableRel tsLe := fun a b => by
  unfold tsLe
  infer_instance

/-- `_identify_dora_sequences`: per client bucket, sort by timestamp
(stably), run the scanning loop, and report the sequence whenever it
collected at least one message. -/
def identifyDoraSequences (messages : List DhcpMsg) : List DoraSeq :=
  (groupByClient messages).filterMap fun g =>
    let sorted := List.insertionSort tsLe g.2
    let res := doraLoop sorted [] []
    if res.1 = [] then none else some ⟨g.1, res.1, res.2⟩

instance : IsTotal DhcpMsg tsLe :=
  ⟨fun a b => strLe_total a.timestamp b.timestamp⟩

instance : IsTrans DhcpMsg tsLe :=
  ⟨fun _ _ _ h1 h2 => strLe_trans h1 h2⟩

/-- Strict timestamp order between messages. -/
def tsLt (a b : DhcpMsg) : Prop := strLt a.timestamp b.timestamp = true

instance : DecidableRel tsLt := fun a b => by
  unfold tsLt
  infer_instance

theorem groupByClient_aux (mac : Str) (hmac : mac ≠ []) :
    ∀ (l : List DhcpMsg) (acc : List DhcpMsg), (∀ m ∈ l, m.clientMac = mac) →
      l.foldl (fun g m => if m.clientMac = [] then g else addToGroup g m.clientMac m)
        [(mac, acc)] = [(mac, acc ++ l)] := by
  intro l
  induction l with
  | nil => intro acc _; simp
  | cons m ms ih =>
    intro acc hall
    have hm : m.clientMac = mac := hall m (by simp)
    have hstep :
        (if m.clientMac = [] then [(mac, acc)]
         else addToGroup [(mac, acc)] m.clientMac m) = [(mac, acc ++ [m])] := by
      rw [hm, if_neg hmac]
      simp [addToGroup]
    rw [List.foldl_cons, hstep, ih (acc ++ [m]) (fun x hx => hall x (by simp [hx]))]
    simp

theorem groupByClient_single (msgs : List DhcpMsg) (mac : Str) (hmac : mac ≠ [])
    (hne : msgs ≠ []) (hall : ∀ m ∈ msgs, m.clientMac = mac) :
    groupByClient msgs = [(mac, msgs)] := by
  cases msgs with
  | nil => exact absurd rfl hne
  | cons m ms =>
    have hm : m.clientMac = mac := hall m (by simp)
    unfold groupByClient
    have hstep :
        (if m.clientMac = [] then ([] : List (Str × List DhcpMsg))
         else addToGroup [] m.clientMac m) = [(mac, [m])] := by
      rw [hm, if_neg hmac]
      simp [addToGroup]
    rw [List.foldl_cons, hstep,
      groupByClient_aux mac hmac ms [m] (fun x hx => hall x (by simp [hx]))]
    simp

theorem insertionSort_eq_of_perm_strict (msgs : List DhcpMsg) (l : List DhcpMsg)
    (hperm : msgs.Perm l) (hsorted : l.Pairwise tsLt) :
    List.insertionSort tsLe msgs = l := by
  have hperm2 : (List.insertionSort tsLe msgs).Perm l :=
    (List.perm_insertionSort tsLe msgs).trans hperm
  have hle : (List.insertionSort tsLe msgs).Pairwise tsLe :=
    List.sorted_insertionSort tsLe msgs
  have hS : l.Pairwise (fun x y => tsLt x y ∨ tsLt y x) :=
    hsorted.imp (fun h => Or.inl h)
  have hSsymm : ∀ {x y : DhcpMsg}, (tsLt x y ∨ tsLt y x) → (tsLt y x ∨ tsLt x y) :=
    fun h => h.symm
  have hS2 : (List.insertionSort tsLe msgs).Pairwise (fun x y => tsLt x y ∨ tsLt y x) :=
    (hperm2.pairwise_iff hSsymm).mpr hS
  have hstrict : (List.insertionSort tsLe msgs).Pairwise tsLt := by
    refine (hle.and hS2).imp ?_
    rintro a b ⟨hab, hor⟩
    rcases hor with h | h
    · exact h
    · exfalso
      unfold tsLe strLe at hab
      unfold tsLt at h
      simp [h] at hab
  haveI : IsAntisymm DhcpMsg tsLt :=
    ⟨fun a b h h' => absurd h' (by unfold tsLt; simp [strLt_asymm h])⟩
  exact List.eq_of_perm_of_sorted hperm2 hstrict hsorted

theorem doraLoop_dora (d o r a : DhcpMsg)
    (h1 : d.messageType = "DHCPDISCOVER".toList)
    (h2 : o.messageType = "DHCPOFFER".toList)
    (h3 : r.messageType = "DHCPREQUEST".toList)
    (h4 : a.messageType = "DHCPACK".toList) :
    doraLoop [d, o, r, a] [] [] = ([d, o, r, a], true) := by
  simp +decide [doraLoop, h1, h2, h3, h4, doraPattern, lastN]

/-- C4: for every permutation of four records of types DISCOVER, OFFER,
REQUEST, ACK for a single peer key with valid, distinct timestamps in that
temporal order, `_identify_dora_sequences` sorts the peer's bucketed
messages by timestamp and produces exactly one sequence for that peer with
`complete = true` and a matched-message list of length 4. -/
theorem dora_arrival_order_independent (mac : Str) (d o r a : DhcpMsg)
    (msgs : List DhcpMsg) (hmac : mac ≠ [])
    (hd : d.clientMac = mac) (ho : o.clientMac = mac)
    (hr : r.clientMac = mac) (ha : a.clientMac = mac)
    (htd : d.messageType = "DHCPDISCOVER".toList)
    (hto : o.messageType = "DHCPOFFER".toList)
    (htr : r.messageType = "DHCPREQUEST".toList)
    (hta : a.messageType = "DHCPACK".toList)
    (t1 : tsLt d o) (t2 : tsLt o r) (t3 : tsLt r a)
    (hperm : msgs.Perm [d, o, r, a]) :
    identifyDoraSequences msgs = [⟨mac, [d, o, r, a], true⟩] := by
  have hall : ∀ m ∈ msgs, m.clientMac = mac := by
    intro m hm
    have : m ∈ [d, o, r, a] := hperm.mem_iff.mp hm
    simp only [List.mem_cons, List.not_mem_nil, or_false] at this
    rcases this with h | h | h | h <;> subst h <;> assumption
  have hne : msgs ≠ [] := by
    intro h
    have := hperm.length_eq
    simp [h] at this
  have hsorted : ([d, o, r, a] : List DhcpMsg).Pairwise tsLt := by
    have t4 : tsLt d r := strLt_trans t1 t2
    have t5 : tsLt o a := strLt_trans t2 t3
    have t6 : tsLt d a := strLt_trans t4 t3
    simp [List.pairwise_cons, t1, t2, t3, t4, t5, t6]
  unfold identifyDoraSequences
  rw [groupByClient_single msgs mac hmac hne hall]
  simp only [List.filterMap_cons, List.filterMap_nil]
  rw [insertionSort_eq_of_perm_strict msgs [d, o, r, a] hperm hsorted,
    doraLoop_dora d o r a htd hto htr hta]
  simp

/-- Concrete DHCP messages used in witnesses and counterexamples. -/
def msgOf (ty ts : String) : DhcpMsg :=
  ⟨"aa:bb:cc:dd:ee:ff".toList, ty.toList, ts.toList⟩

theorem dora_arrival_order_independent_witness :
    identifyDoraSequences
        [msgOf "DHCPACK" "4", msgOf "DHCPOFFER" "2",
         msgOf "DHCPDISCOVER" "1", msgOf "DHCPREQUEST" "3"] =
      [⟨"aa:bb:cc:dd:ee:ff".toList,
        [msgOf "DHCPDISCOVER" "1", msgOf "DHCPOFFER" "2",
         msgOf "DHCPREQUEST" "3", msgOf "DHCPACK" "4"], true⟩] :=
  dora_arrival_order_independent "aa:bb:cc:dd:ee:ff".toList
    (msgOf "DHCPDISCOVER" "1") (msgOf "DHCPOFFER" "2")
    (msgOf "DHCPREQUEST" "3") (msgOf "DHCPACK" "4")
    _ (by decide) rfl rfl rfl rfl rfl rfl rfl rfl
    (by decide) (by decide) (by decide) (by decide)

/-- C1 counterexample: a duplicate (retransmitted) REQUEST inserted between
the matched REQUEST and ACK steps prevents the sequence from ever being
marked complete, because the duplicate is appended to `current_pattern` and
the literal tail match `current_pattern[-4:] == dora_pattern` then fails;
without the duplicate the very same messages complete. -/
theorem dora_duplicate_counterexample :
    (identifyDoraSequences
        [msgOf "DHCPDISCOVER" "1", msgOf "DHCPOFFER" "2",
         msgOf "DHCPREQUEST" "3", msgOf "DHCPREQUEST" "4",
         msgOf "DHCPACK" "5"]).countP (fun s => s.complete) = 0 ∧
    (identifyDoraSequences
        [msgOf "DHCPDISCOVER" "1", msgOf "DHCPOFFER" "2",
         msgOf "DHCPREQUEST" "3",
         msgOf "DHCPACK" "5"]).countP (fun s => s.complete) = 1 := by
  constructor <;> decide

/-- C1 (amended): a message whose type is not one of the four DORA types is
ignored by the scanning loop and leaves the matching progress unchanged, no
matter where it is inserted; a duplicate of a DORA-typed message, however,
is appended to the tracked pattern and can prevent completion. -/
theorem dora_out_of_pattern_ignored (l₁ l₂ : List DhcpMsg) (m : DhcpMsg)
    (pat : List Str) (acc : List DhcpMsg) (hm : m.messageType ∉ doraPattern) :
    doraLoop (l₁ ++ m :: l₂) pat acc = doraLoop (l₁ ++ l₂) pat acc := by
  induction l₁ generalizing pat acc with
  | nil =>
    simp only [List.nil_append]
    rw [doraLoop, if_neg hm]
  | cons x xs ih =>
    simp only [List.cons_append]
    rw [doraLoop, doraLoop]
    by_cases hx : x.messageType ∈ doraPattern
    · rw [if_pos hx, if_pos hx]
      by_cases hdone :
          (pat ++ [x.messageType]).length ≥ 4 ∧
            lastN 4 (pat ++ [x.messageType]) = doraPattern
      · rw [if_pos hdone, if_pos hdone]
      · rw [if_neg hdone, if_neg hdone]
        exact ih _ _
    · rw [if_neg hx, if_neg hx]
      exact ih _ _

theorem dora_out_of_pattern_ignored_witness :
    doraLoop
        [msgOf "DHCPDISCOVER" "1", msgOf "DHCPOFFER" "2", msgOf "DHCPNAK" "25",
         msgOf "DHCPREQUEST" "3", msgOf "DHCPACK" "4"] [] [] =
      doraLoop
        [msgOf "DHCPDISCOVER" "1", msgOf "DHCPOFFER" "2",
         msgOf "DHCPREQUEST" "3", msgOf "DHCPACK" "4"] [] [] :=
  dora_out_of_pattern_ignored
    [msgOf "DHCPDISCOVER" "1", msgOf "DHCPOFFER" "2"]
    [msgOf "DHCPREQUEST" "3", msgOf "DHCPACK" "4"]
    (msgOf "DHCPNAK" "25") [] [] (by decide)

/-!
## Wireshark analyzer (src/scripts/wireshark-analyzer.py)

`analyze_packets` extracts a `packet_info` dict from each packet's raw
`layers` field map via `layers.get(name, [''])[0]`, then updates running
aggregates: total bytes, per-protocol counts, endpoint counts, conversation
counts keyed by `tuple(sorted([src, dst]))`, top talkers, and a nested
protocol-hierarchy dict maintained by `_update_protocol_hierarchy`.
-/

/-- A raw field value in a capture-tool `layers` map: either a bare string
or a list of strings (tshark JSON emits one-element lists). -/
inductive RawVal where
  | str (s : Str)
  | arr (l : List Str)
deriving DecidableEq

/-- Python `layers.get(key, [''])`: first matching key, else the default
one-element list holding the empty string. -/
def layersGet (layers : List (Str × RawVal)) (k : Str) : RawVal :=
  match layers with
  | [] => RawVal.arr [[]]
  | (k', v) :: rest => if k' = k then v else layersGet rest k

/-- Python `v[0]`: the first element of a list, or the first character of a
string (as a one-character string); `none` models the IndexError raised on
an empty value, which makes `analyze_packets` skip the whole packet. -/
def index0 : RawVal → Option Str
  | RawVal.str [] => none
  | RawVal.str (c :: _) => some [c]
  | RawVal.arr [] => none
  | RawVal.arr (s :: _) => some s

/-- Field extraction `layers.get(name, [''])[0]` used to build `packet_info`. -/
def extractField (layers : List (Str × RawVal)) (k : Str) : Option Str :=
  index0 (layersGet layers k)

/-- First matching key, or `none` — used to state which raw form a map
supplies for a field. -/
def lookupRaw (layers : List (Str × RawVal)) (k : Str) : Option RawVal :=
  match layers with
  | [] => none
  | (k', v) :: rest => if k' = k then some v else lookupRaw rest k

/-- Python dict counter update `m[k] = m.get(k, 0) + 1` on an
insertion-ordered association list. -/
def bump {κ : Type} [DecidableEq κ] (m : List (κ × Nat)) (k : κ) : List (κ × Nat) :=
  match m with
  | [] => [(k, 1)]
  | (k', n) :: rest => if k' = k then (k', n + 1) :: rest else (k', n) :: bump rest k

/-- Python `m.get(k, 0)`. -/
def lookup0 {κ : Type} [DecidableEq κ] (m : List (κ × Nat)) (k : κ) : Nat :=
  match m with
  | [] => 0
  | (k', n) :: rest => if k' = k then n else lookup0 rest k

/-- `conv_key = tuple(sorted([src, dst]))`: Python's stable sort of a
two-element list swaps exactly when the second element is less than the
first. -/
def convKey (src dst : Str) : Str × Str :=
  if strLt dst src then (dst, src) else (src, dst)

/-- The conversation-analysis step of `analyze_packets`: only applied when
both `src_ip` and `dst_ip` are truthy (non-empty). -/
def convUpdate (convs : List ((Str × Str) × Nat)) (src dst : Str) :
    List ((Str × Str) × Nat) :=
  if src ≠ [] ∧ dst ≠ [] then bump convs (convKey src dst) else convs

/-- Python `s.split(sep)` for a one-character separator (so that
`"".split(":") == [""]` and empty segments are kept). -/
def splitChar (sep : Char) : Str → List Str
  | [] => [[]]
  | c :: rest =>
    if c = sep then [] :: splitChar sep rest
    else
      match splitChar sep rest with
      | [] => [[c]]
      | seg :: segs => (c :: seg) :: segs

/-- `packet_info['protocols'].split(':') if packet_info['protocols'] else []`. -/
def protoSplit (s : Str) : List Str :=
  if s = [] then [] else splitChar ':' s

/-- A node of the nested protocol-hierarchy dict:
`{'count': n, 'children': {...}}`. -/
inductive PHNode where
  | mk (count : Nat) (children : List (Str × PHNode))

def PHNode.count : PHNode → Nat
  | .mk c _ => c

def PHNode.children : PHNode → List (Str × PHNode)
  | .mk _ ch => ch

/-- The protocol-hierarchy dict: protocol name → node, insertion ordered. -/
abbrev PHier := List (Str × PHNode)

/-- Python `p in current` / `current[p]` on the hierarchy dict. -/
def lookupChild (h : PHier) (p : Str) : Option PHNode :=
  match h with
  | [] => none
  | (k, n) :: rest => if k = p then some n else lookupChild rest p

/-- Replace the entry for key `p` (present by assumption) with a new node. -/
def replaceChild (h : PHier) (p : Str) (n' : PHNode) : PHier :=
  match h with
  | [] => []
  | (k, n) :: rest =>
    if k = p then (k, n') :: rest else (k, n) :: replaceChild rest p n'

/-- `_update_protocol_hierarchy(hierarchy, protocols)`: walk down the
protocol list, skipping empty names, creating `{'count': 0, 'children': {}}`
entries on demand, incrementing each visited node's count and descending
into its children. -/
def updatePH : PHier → List Str → PHier
  | h, [] => h
  | h, p :: rest =>
    if p = [] then updatePH h rest
    else
      match lookupChild h p with
      | some n => replaceChild h p (PHNode.mk (n.count + 1) (updatePH n.children rest))
      | none => h ++ [(p, PHNode.mk 1 (updatePH [] rest))]

/-- Hierarchy after processing a list of protocol stks from the empty dict. -/
def buildHier (stks : List (List Str)) : PHier :=
  stks.foldl updatePH []

/-- Sum of the counts at one level of the hierarchy. -/
def rootSum (h : PHier) : Nat :=
  (h.map (fun e => e.2.count)).sum

/-- The non-empty protocol names of a stack (the ones the walk visits). -/
def cleanStack (s : List Str) : List Str :=
  s.filter (fun p => p ≠ [])

/-- The node reached by following a non-empty path of protocol names. -/
def getNodeAt : PHier → List Str → Option PHNode
  | _, [] => none
  | h, q0 :: qrest =>
    match lookupChild h q0 with
    | none => none
    | some n =>
      match qrest with
      | [] => some n
      | _ :: _ => getNodeAt n.children qrest

/-- The count stored at a path (0 when the path does not exist). -/
def countAt (h : PHier) (q : List Str) : Nat :=
  match getNodeAt h q with
  | some n => n.count
  | none => 0

/-- The sum of the children counts of the node at a path. -/
def childSumAt (h : PHier) (q : List Str) : Nat :=
  match getNodeAt h q with
  | some n => rootSum n.children
  | none => 0

theorem convKey_comm (a b : Str) : convKey a b = convKey b a := by
  unfold convKey
  cases hab : strLt a b with
  | true =>
    rw [strLt_asymm hab]
    simp
  | false =>
    cases hba : strLt b a with
    | true => simp
    | false =>
      rw [strLt_conn hab hba]

theorem lookup0_bump {κ : Type} [DecidableEq κ] (m : List (κ × Nat)) (k k' : κ) :
    lookup0 (bump m k) k' = lookup0 m k' + (if k' = k then 1 else 0) := by
  induction m with
  | nil =>
    by_cases h : k' = k
    · subst h
      simp [bump, lookup0]
    · have h' : ¬ k = k' := fun hh => h hh.symm
      simp [bump, lookup0, h, h']
  | cons e rest ih =>
    obtain ⟨k0, n⟩ := e
    by_cases h0 : k0 = k
    · subst h0
      by_cases h1 : k' = k0
      · subst h1
        simp [bump, lookup0]
      · have h1' : ¬ k0 = k' := fun hh => h1 hh.symm
        simp [bump, lookup0, h1, h1']
    · by_cases h1 : k0 = k'
      · subst h1
        have h2 : ¬ k0 = k := h0
        simp [bump, lookup0, h0, h2]
      · simp [bump, lookup0, h0, h1, ih]

/-- C2: conversation keying is commutative and canonical — for a record
with both `src_ip` and `dst_ip` present, exactly one conversation entry is
updated, keyed by the sorted endpoint pair, so a record `(A, B)` and a later
record `(B, A)` increment the same single entry. -/
theorem conversation_keying (convs : List ((Str × Str) × Nat)) (src dst : Str)
    (hs : src ≠ []) (hd : dst ≠ []) :
    convKey src dst = convKey dst src ∧
    (∀ k, lookup0 (convUpdate convs src dst) k =
        lookup0 convs k + (if k = convKey src dst then 1 else 0)) ∧
    lookup0 (convUpdate (convUpdate convs src dst) dst src) (convKey src dst) =
      lookup0 convs (convKey src dst) + 2 := by
  have hcomm : convKey src dst = convKey dst src := convKey_comm src dst
  have hupd : convUpdate convs src dst = bump convs (convKey src dst) := by
    unfold convUpdate
    rw [if_pos ⟨hs, hd⟩]
  have hupd2 : ∀ m, convUpdate m dst src = bump m (convKey src dst) := by
    intro m
    unfold convUpdate
    rw [if_pos ⟨hd, hs⟩, ← hcomm]
  refine ⟨hcomm, ?_, ?_⟩
  · intro k
    rw [hupd, lookup0_bump]
  · rw [hupd, hupd2, lookup0_bump, lookup0_bump]
    simp

theorem conversation_keying_witness :
    convKey "10.0.0.2".toList "10.0.0.1".toList =
        convKey "10.0.0.1".toList "10.0.0.2".toList ∧
    (∀ k, lookup0 (convUpdate [] "10.0.0.2".toList "10.0.0.1".toList) k =
        lookup0 [] k +
          (if k = convKey "10.0.0.2".toList "10.0.0.1".toList then 1 else 0)) ∧
    lookup0
        (convUpdate (convUpdate [] "10.0.0.2".toList "10.0.0.1".toList)
          "10.0.0.1".toList "10.0.0.2".toList)
        (convKey "10.0.0.2".toList "10.0.0.1".toList) =
      lookup0 [] (convKey "10.0.0.2".toList "10.0.0.1".toList) + 2 :=
  conversation_keying [] "10.0.0.2".toList "10.0.0.1".toList
    (by decide) (by decide)

theorem layersGet_of_lookupRaw {layers : List (Str × RawVal)} {k : Str} {v : RawVal}
    (h : lookupRaw layers k = some v) : layersGet layers k = v := by
  induction layers with
  | nil => simp [lookupRaw] at h
  | cons e rest ih =>
    obtain ⟨k0, v0⟩ := e
    by_cases h0 : k0 = k
    · subst h0
      simp [lookupRaw] at h
      simp [layersGet, h]
    · simp [lookupRaw, h0] at h
      simp [layersGet, h0, ih h]

theorem layersGet_of_lookupRaw_none {layers : List (Str × RawVal)} {k : Str}
    (h : lookupRaw layers k = none) : layersGet layers k = RawVal.arr [[]] := by
  induction layers with
  | nil => rfl
  | cons e rest ih =>
    obtain ⟨k0, v0⟩ := e
    by_cases h0 : k0 = k
    · subst h0
      simp [lookupRaw] at h
    · simp [lookupRaw, h0] at h
      simp [layersGet, h0, ih h]

/-- C5 counterexample: the same field value supplied as a bare string and
as a one-element list yields different extracted values — `[0]` on the bare
string `"10.0.0.1"` picks out the one-character string `"1"`, not the whole
string. -/
theorem field_form_counterexample :
    extractField [("ip.src".toList, RawVal.str "10.0.0.1".toList)] "ip.src".toList =
        some ['1'] ∧
    extractField [("ip.src".toList, RawVal.arr ["10.0.0.1".toList])] "ip.src".toList =
        some "10.0.0.1".toList ∧
    (some ['1'] : Option Str) ≠ some "10.0.0.1".toList := by
  refine ⟨rfl, rfl, by decide⟩

/-- C5 (amended): a field supplied as a one-element list yields the
contained string while the same field supplied as a bare string yields only
its first character, so the two forms yield the same extracted value exactly
when the string has length 1; a field absent from the map is treated exactly
as the empty string. -/
theorem field_extraction_forms (layers1 layers2 : List (Str × RawVal)) (k s : Str)
    (h1 : lookupRaw layers1 k = some (RawVal.str s))
    (h2 : lookupRaw layers2 k = some (RawVal.arr [s])) :
    (extractField layers1 k = extractField layers2 k ↔ s.length = 1) ∧
    extractField layers2 k = some s ∧
    (∀ layers, lookupRaw layers k = none → extractField layers k = some []) := by
  have e1 : extractField layers1 k = index0 (RawVal.str s) := by
    unfold extractField
    rw [layersGet_of_lookupRaw h1]
  have e2 : extractField layers2 k = some s := by
    unfold extractField
    rw [layersGet_of_lookupRaw h2]
    cases s <;> rfl
  refine ⟨?_, e2, ?_⟩
  · rw [e1, e2]
    cases s with
    | nil => simp [index0]
    | cons c rest =>
      simp only [index0, Option.some_inj, List.length_cons]
      constructor
      · intro h
        have hr : rest = [] := by
          injection h with _ h2
          exact h2.symm
        subst hr
        rfl
      · intro h
        have hr : rest = [] := by
          have : rest.length = 0 := by omega
          exact List.length_eq_zero.mp this
        rw [hr]
  · intro layers h
    unfold extractField
    rw [layersGet_of_lookupRaw_none h]
    rfl

theorem field_extraction_forms_witness :
    (extractField [("ip.src".toList, RawVal.str "ab".toList)] "ip.src".toList =
          extractField [("ip.src".toList, RawVal.arr ["ab".toList])] "ip.src".toList ↔
        ("ab".toList : Str).length = 1) ∧
    extractField [("ip.src".toList, RawVal.arr ["ab".toList])] "ip.src".toList =
      some "ab".toList ∧
    (∀ layers, lookupRaw layers "ip.src".toList = none →
        extractField layers "ip.src".toList = some []) :=
  field_extraction_forms [("ip.src".toList, RawVal.str "ab".toList)]
    [("ip.src".toList, RawVal.arr ["ab".toList])] "ip.src".toList "ab".toList
    (by decide) (by decide)

theorem lookupChild_replace_self {h : PHier} {p : Str} {n : PHNode} (n' : PHNode)
    (hl : lookupChild h p = some n) :
    lookupChild (replaceChild h p n') p = some n' := by
  induction h with
  | nil => simp [lookupChild] at hl
  | cons e rest ih =>
    obtain ⟨k, m⟩ := e
    by_cases hk : k = p
    · subst hk
      simp [replaceChild, lookupChild]
    · simp only [lookupChild, if_neg hk] at hl
      simp [replaceChild, lookupChild, hk, ih hl]

theorem lookupChild_replace_other (h : PHier) {p q : Str} (n' : PHNode) (hq : q ≠ p) :
    lookupChild (replaceChild h p n') q = lookupChild h q := by
  induction h with
  | nil => rfl
  | cons e rest ih =>
    obtain ⟨k, m⟩ := e
    by_cases hk : k = p
    · subst hk
      have : ¬ k = q := fun hh => hq (hh ▸ rfl)
      simp [replaceChild, lookupChild, this]
    · simp [replaceChild, lookupChild, hk, ih]

theorem lookupChild_append_self {h : PHier} {p : Str} (x : PHNode)
    (hl : lookupChild h p = none) :
    lookupChild (h ++ [(p, x)]) p = some x := by
  induction h with
  | nil => simp [lookupChild]
  | cons e rest ih =>
    obtain ⟨k, m⟩ := e
    by_cases hk : k = p
    · subst hk
      simp [lookupChild] at hl
    · simp only [lookupChild, if_neg hk] at hl
      simp [lookupChild, hk, ih hl]

theorem lookupChild_append_other (h : PHier) {p q : Str} (x : PHNode) (hq : q ≠ p) :
    lookupChild (h ++ [(p, x)]) q = lookupChild h q := by
  induction h with
  | nil =>
    have : ¬ p = q := fun hh => hq (hh ▸ rfl)
    simp [lookupChild, this]
  | cons e rest ih =>
    obtain ⟨k, m⟩ := e
    by_cases hk : k = q
    · subst hk
      simp [lookupChild]
    · simp [lookupChild, hk, ih]

theorem countAt_cons_none {h : PHier} {q0 : Str} (hl : lookupChild h q0 = none)
    (qrest : List Str) : countAt h (q0 :: qrest) = 0 := by
  cases qrest <;> simp [countAt, getNodeAt, hl]

theorem countAt_single_some {h : PHier} {q0 : Str} {n : PHNode}
    (hl : lookupChild h q0 = some n) : countAt h [q0] = n.count := by
  simp [countAt, getNodeAt, hl]

theorem countAt_cons_cons_some {h : PHier} {q0 : Str} {n : PHNode}
    (hl : lookupChild h q0 = some n) (q1 : Str) (qt : List Str) :
    countAt h (q0 :: q1 :: qt) = countAt n.children (q1 :: qt) := by
  simp [countAt, getNodeAt, hl]

theorem childSumAt_cons_none {h : PHier} {q0 : Str} (hl : lookupChild h q0 = none)
    (qrest : List Str) : childSumAt h (q0 :: qrest) = 0 := by
  cases qrest <;> simp [childSumAt, getNodeAt, hl]

theorem childSumAt_single_some {h : PHier} {q0 : Str} {n : PHNode}
    (hl : lookupChild h q0 = some n) : childSumAt h [q0] = rootSum n.children := by
  simp [childSumAt, getNodeAt, hl]

theorem childSumAt_cons_cons_some {h : PHier} {q0 : Str} {n : PHNode}
    (hl : lookupChild h q0 = some n) (q1 : Str) (qt : List Str) :
    childSumAt h (q0 :: q1 :: qt) = childSumAt n.children (q1 :: qt) := by
  simp [childSumAt, getNodeAt, hl]

theorem PHNode.count_mk (c : Nat) (ch : List (Str × PHNode)) :
    (PHNode.mk c ch).count = c := rfl

theorem PHNode.children_mk (c : Nat) (ch : List (Str × PHNode)) :
    (PHNode.mk c ch).children = ch := rfl

theorem rootSum_replace {h : PHier} {p : Str} {n : PHNode} (n' : PHNode)
    (hl : lookupChild h p = some n) :
    rootSum (replaceChild h p n') + n.count = rootSum h + n'.count := by
  induction h with
  | nil => simp [lookupChild] at hl
  | cons e rest ih =>
    obtain ⟨k, m⟩ := e
    by_cases hk : k = p
    · subst hk
      have hm : m = n := by
        have hh : lookupChild ((k, m) :: rest) k = some m := by simp [lookupChild]
        rw [hh] at hl
        exact Option.some_inj.mp hl
      subst hm
      simp [replaceChild, rootSum]
      omega
    · simp only [lookupChild, if_neg hk] at hl
      have := ih hl
      simp only [replaceChild, if_neg hk, rootSum, List.map_cons, List.sum_cons]
      simp only [rootSum] at this
      omega

theorem rootSum_append (h : PHier) (e : Str × PHNode) :
    rootSum (h ++ [e]) = rootSum h + e.2.count := by
  simp [rootSum]

theorem updatePH_nil_key (h : PHier) (rest : List Str) :
    updatePH h ([] :: rest) = updatePH h rest := by
  simp [updatePH]

theorem cleanStack_nil_key (rest : List Str) :
    cleanStack ([] :: rest) = cleanStack rest := by
  simp [cleanStack]

theorem cleanStack_cons {p : Str} (hp : p ≠ []) (rest : List Str) :
    cleanStack (p :: rest) = p :: cleanStack rest := by
  simp [cleanStack, hp]

theorem updatePH_found {h : PHier} {p : Str} {n : PHNode} (hp : p ≠ [])
    (hl : lookupChild h p = some n) (rest : List Str) :
    updatePH h (p :: rest) =
      replaceChild h p (PHNode.mk (n.count + 1) (updatePH n.children rest)) := by
  simp [updatePH, hp, hl]

theorem updatePH_missing {h : PHier} {p : Str} (hp : p ≠ [])
    (hl : lookupChild h p = none) (rest : List Str) :
    updatePH h (p :: rest) = h ++ [(p, PHNode.mk 1 (updatePH [] rest))] := by
  simp [updatePH, hp, hl]

theorem rootSum_updatePH (s : List Str) : ∀ h : PHier,
    rootSum (updatePH h s) = rootSum h + (if cleanStack s = [] then 0 else 1) := by
  induction s with
  | nil =>
    intro h
    simp [updatePH, cleanStack]
  | cons p rest ih =>
    intro h
    by_cases hp : p = []
    · subst hp
      rw [updatePH_nil_key, ih h, cleanStack_nil_key]
    · rw [cleanStack_cons hp]
      cases hl : lookupChild h p with
      | some n =>
        rw [updatePH_found hp hl rest]
        have hr := rootSum_replace
          (PHNode.mk (n.count + 1) (updatePH n.children rest)) hl
        rw [PHNode.count_mk] at hr
        rw [if_neg (List.cons_ne_nil p (cleanStack rest))]
        omega
      | none =>
        rw [updatePH_missing hp hl rest, rootSum_append]
        rw [if_neg (List.cons_ne_nil p (cleanStack rest))]
        rfl

theorem countAt_updatePH (s : List Str) : ∀ (h : PHier) (q : List Str),
    countAt (updatePH h s) q =
      countAt h q + (if q ≠ [] ∧ q <+: cleanStack s then 1 else 0) := by
  induction s with
  | nil =>
    intro h q
    have hcond : ¬ (q ≠ [] ∧ q <+: cleanStack ([] : List Str)) := by
      rintro ⟨hq, hpre⟩
      exact hq (List.prefix_nil.mp hpre)
    simp [updatePH, hcond]
  | cons p rest ih =>
    intro h q
    by_cases hp : p = []
    · subst hp
      rw [updatePH_nil_key, ih h q, cleanStack_nil_key]
    · rw [cleanStack_cons hp]
      cases q with
      | nil => simp [countAt, getNodeAt]
      | cons q0 qrest =>
        by_cases hq0 : q0 = p
        · subst hq0
          cases hl : lookupChild h q0 with
          | some n =>
            rw [updatePH_found hp hl rest]
            have hlook := lookupChild_replace_self
              (PHNode.mk (n.count + 1) (updatePH n.children rest)) hl
            cases qrest with
            | nil =>
              rw [countAt_single_some hlook, countAt_single_some hl]
              rw [if_pos ⟨List.cons_ne_nil q0 [],
                List.cons_prefix_cons.mpr ⟨rfl, List.nil_prefix⟩⟩]
              rw [PHNode.count_mk]
            | cons q1 qt =>
              rw [countAt_cons_cons_some hlook q1 qt,
                countAt_cons_cons_some hl q1 qt]
              rw [PHNode.children_mk]
              rw [ih n.children (q1 :: qt)]
              by_cases hpre : (q1 :: qt) <+: cleanStack rest
              · rw [if_pos ⟨List.cons_ne_nil q1 qt, hpre⟩,
                  if_pos ⟨List.cons_ne_nil q0 (q1 :: qt),
                    List.cons_prefix_cons.mpr ⟨rfl, hpre⟩⟩]
              · rw [if_neg (fun hc => hpre hc.2),
                  if_neg (fun hc => hpre (List.cons_prefix_cons.mp hc.2).2)]
          | none =>
            rw [updatePH_missing hp hl rest]
            have hlook := lookupChild_append_self
              (PHNode.mk 1 (updatePH [] rest)) hl
            cases qrest with
            | nil =>
              rw [countAt_single_some hlook, countAt_cons_none hl]
              rw [if_pos ⟨List.cons_ne_nil q0 [],
                List.cons_prefix_cons.mpr ⟨rfl, List.nil_prefix⟩⟩]
              rw [PHNode.count_mk]
            | cons q1 qt =>
              rw [countAt_cons_cons_some hlook q1 qt, countAt_cons_none hl]
              rw [PHNode.children_mk]
              rw [ih [] (q1 :: qt)]
              have hemp : countAt ([] : PHier) (q1 :: qt) = 0 :=
                countAt_cons_none (show lookupChild ([] : PHier) q1 = none from rfl) qt
              rw [hemp]
              by_cases hpre : (q1 :: qt) <+: cleanStack rest
              · rw [if_pos ⟨List.cons_ne_nil q1 qt, hpre⟩,
                  if_pos ⟨List.cons_ne_nil q0 (q1 :: qt),
                    List.cons_prefix_cons.mpr ⟨rfl, hpre⟩⟩]
              · rw [if_neg (fun hc => hpre hc.2),
                  if_neg (fun hc => hpre (List.cons_prefix_cons.mp hc.2).2)]
        · have hcond : ¬ ((q0 :: qrest) ≠ [] ∧ (q0 :: qrest) <+: p :: cleanStack rest) :=
            fun hc => hq0 (List.cons_prefix_cons.mp hc.2).1
          rw [if_neg hcond]
          cases hl : lookupChild h p with
          | some n =>
            rw [updatePH_found hp hl rest]
            have hlo := lookupChild_replace_other h
              (PHNode.mk (n.count + 1) (updatePH n.children rest)) hq0
            cases hl2 : lookupChild h q0 with
            | none =>
              rw [countAt_cons_none (hlo.trans hl2) qrest, countAt_cons_none hl2]
            | some m =>
              cases qrest with
              | nil =>
                rw [countAt_single_some (hlo.trans hl2), countAt_single_some hl2]
                omega
              | cons q1 qt =>
                rw [countAt_cons_cons_some (hlo.trans hl2) q1 qt,
                  countAt_cons_cons_some hl2 q1 qt]
                omega
          | none =>
            rw [updatePH_missing hp hl rest]
            have hlo := lookupChild_append_other h
              (PHNode.mk 1 (updatePH [] rest)) hq0
            cases hl2 : lookupChild h q0 with
            | none =>
              rw [countAt_cons_none (hlo.trans hl2) qrest, countAt_cons_none hl2]
            | some m =>
              cases qrest with
              | nil =>
                rw [countAt_single_some (hlo.trans hl2), countAt_single_some hl2]
                omega
              | cons q1 qt =>
                rw [countAt_cons_cons_some (hlo.trans hl2) q1 qt,
                  countAt_cons_cons_some hl2 q1 qt]
                omega

theorem childSum_le_updatePH (s : List Str) : ∀ h : PHier,
    (∀ q, childSumAt h q ≤ countAt h q) →
    ∀ q, childSumAt (updatePH h s) q ≤ countAt (updatePH h s) q := by
  induction s with
  | nil =>
    intro h P q
    simpa [updatePH] using P q
  | cons p rest ih =>
    intro h P q
    by_cases hp : p = []
    · subst hp
      rw [updatePH_nil_key]
      exact ih h P q
    · cases hl : lookupChild h p with
      | some n =>
        rw [updatePH_found hp hl rest]
        have hlook := lookupChild_replace_self
          (PHNode.mk (n.count + 1) (updatePH n.children rest)) hl
        have Pch : ∀ q', childSumAt n.children q' ≤ countAt n.children q' := by
          intro q'
          cases q' with
          | nil => simp [childSumAt, countAt, getNodeAt]
          | cons a b =>
            have hP := P (p :: a :: b)
            rw [childSumAt_cons_cons_some hl a b,
              countAt_cons_cons_some hl a b] at hP
            exact hP
        cases q with
        | nil => simp [childSumAt, countAt, getNodeAt]
        | cons q0 qrest =>
          by_cases hq0 : q0 = p
          · subst hq0
            cases qrest with
            | nil =>
              rw [childSumAt_single_some hlook, countAt_single_some hlook,
                PHNode.count_mk, PHNode.children_mk,
                rootSum_updatePH rest n.children]
              have hP := P [q0]
              rw [childSumAt_single_some hl, countAt_single_some hl] at hP
              by_cases hcl : cleanStack rest = [] <;> simp [hcl] <;> omega
            | cons q1 qt =>
              rw [childSumAt_cons_cons_some hlook q1 qt,
                countAt_cons_cons_some hlook q1 qt, PHNode.children_mk]
              exact ih n.children Pch (q1 :: qt)
          · have hlo := lookupChild_replace_other h
              (PHNode.mk (n.count + 1) (updatePH n.children rest)) hq0
            cases hl2 : lookupChild h q0 with
            | none =>
              rw [childSumAt_cons_none (hlo.trans hl2) qrest,
                countAt_cons_none (hlo.trans hl2) qrest]
            | some m =>
              cases qrest with
              | nil =>
                rw [childSumAt_single_some (hlo.trans hl2),
                  countAt_single_some (hlo.trans hl2)]
                have hP := P [q0]
                rw [childSumAt_single_some hl2, countAt_single_some hl2] at hP
                exact hP
              | cons q1 qt =>
                rw [childSumAt_cons_cons_some (hlo.trans hl2) q1 qt,
                  countAt_cons_cons_some (hlo.trans hl2) q1 qt]
                have hP := P (q0 :: q1 :: qt)
                rw [childSumAt_cons_cons_some hl2 q1 qt,
                  countAt_cons_cons_some hl2 q1 qt] at hP
                exact hP
      | none =>
        rw [updatePH_missing hp hl rest]
        have hlook := lookupChild_append_self (PHNode.mk 1 (updatePH [] rest)) hl
        have Pemp : ∀ q', childSumAt ([] : PHier) q' ≤ countAt ([] : PHier) q' := by
          intro q'
          cases q' with
          | nil => simp [childSumAt, countAt, getNodeAt]
          | cons a b =>
            rw [childSumAt_cons_none (show lookupChild ([] : PHier) a = none from rfl) b,
              countAt_cons_none (show lookupChild ([] : PHier) a = none from rfl) b]
        cases q with
        | nil => simp [childSumAt, countAt, getNodeAt]
        | cons q0 qrest =>
          by_cases hq0 : q0 = p
          · subst hq0
            cases qrest with
            | nil =>
              rw [childSumAt_single_some hlook, countAt_single_some hlook,
                PHNode.count_mk, PHNode.children_mk,
                rootSum_updatePH rest []]
              have hemp : rootSum ([] : PHier) = 0 := rfl
              rw [hemp]
              by_cases hcl : cleanStack rest = [] <;> simp [hcl]
            | cons q1 qt =>
              rw [childSumAt_cons_cons_some hlook q1 qt,
                countAt_cons_cons_some hlook q1 qt, PHNode.children_mk]
              exact ih [] Pemp (q1 :: qt)
          · have hlo := lookupChild_append_other h
              (PHNode.mk 1 (updatePH [] rest)) hq0
            cases hl2 : lookupChild h q0 with
            | none =>
              rw [childSumAt_cons_none (hlo.trans hl2) qrest,
                countAt_cons_none (hlo.trans hl2) qrest]
            | some m =>
              cases qrest with
              | nil =>
                rw [childSumAt_single_some (hlo.trans hl2),
                  countAt_single_some (hlo.trans hl2)]
                have hP := P [q0]
                rw [childSumAt_single_some hl2, countAt_single_some hl2] at hP
                exact hP
              | cons q1 qt =>
                rw [childSumAt_cons_cons_some (hlo.trans hl2) q1 qt,
                  countAt_cons_cons_some (hlo.trans hl2) q1 qt]
                have hP := P (q0 :: q1 :: qt)
                rw [childSumAt_cons_cons_some hl2 q1 qt,
                  countAt_cons_cons_some hl2 q1 qt] at hP
                exact hP

theorem buildHier_rootSum_aux (l : List (List Str)) : ∀ h : PHier,
    rootSum (l.foldl updatePH h) =
      rootSum h + (l.filter (fun st => cleanStack st ≠ [])).length := by
  induction l with
  | nil => intro h; simp
  | cons s l ih =>
    intro h
    rw [List.foldl_cons, ih (updatePH h s), rootSum_updatePH s h]
    by_cases hcl : cleanStack s = []
    · simp [List.filter_cons, hcl]
    · simp [List.filter_cons, hcl]
      omega

/-- Root level total of the hierarchy built from a record list equals the
number of records whose protocol stack has at least one non-empty name. -/
theorem buildHier_rootSum (stks : List (List Str)) :
    rootSum (buildHier stks) =
      (stks.filter (fun st => cleanStack st ≠ [])).length := by
  rw [buildHier, buildHier_rootSum_aux stks []]
  simp [rootSum]

theorem buildHier_childSum_le (stks : List (List Str)) :
    ∀ q, childSumAt (buildHier stks) q ≤ countAt (buildHier stks) q := by
  have aux : ∀ (l : List (List Str)) (h : PHier),
      (∀ q, childSumAt h q ≤ countAt h q) →
      ∀ q, childSumAt (l.foldl updatePH h) q ≤ countAt (l.foldl updatePH h) q := by
    intro l
    induction l with
    | nil => intro h P q; simpa using P q
    | cons s l ih =>
      intro h P q
      rw [List.foldl_cons]
      exact ih (updatePH h s) (childSum_le_updatePH s h P) q
  refine aux stks [] ?_
  intro q
  cases q with
  | nil => simp [childSumAt, countAt, getNodeAt]
  | cons a b =>
    rw [childSumAt_cons_none (show lookupChild ([] : PHier) a = none from rfl) b,
      countAt_cons_none (show lookupChild ([] : PHier) a = none from rfl) b]

/-- C3: after processing any finite record list, the total count over the
root level of the protocol hierarchy equals the number of records with a
non-empty protocol stack; one update increments the count of exactly the
nodes on the path of the record's (empty-name-filtered) protocol stack — by
exactly one each — and leaves every other node unchanged; and every node's
children counts sum to at most its own count, so counts never increase with
depth along any path. -/
theorem protocol_hierarchy_invariants (stks : List (List Str)) (h : PHier)
    (s : List Str) (q : List Str) :
    rootSum (buildHier stks) =
        (stks.filter (fun st => cleanStack st ≠ [])).length ∧
    countAt (updatePH h s) q =
        countAt h q + (if q ≠ [] ∧ q <+: cleanStack s then 1 else 0) ∧
    childSumAt (buildHier stks) q ≤ countAt (buildHier stks) q :=
  ⟨buildHier_rootSum stks, countAt_updatePH s h q, buildHier_childSum_le stks q⟩

/-!
## tcpdump analyzer (src/scripts/tcpdump-analyzer.py)

`parse_tcpdump_output` splits the tool output into lines and, for each line
that parses (`parse_packet_line`, a regex-based extractor), stores the
packet record and updates the running statistics (`update_stats`).
`detect_anomalies` applies threshold heuristics over the final state.  The
float thresholds `total * 0.1` and `total * 0.5` are modeled by the exact
rational comparisons `10 * x > total` and `2 * x > total`.
-/

/-- Python `str.strip()` whitespace test. -/
def isSpaceChar (c : Char) : Bool :=
  c = ' ' || c = '\n' || c = '\t' || c = '\r' || c = '\x0b' || c = '\x0c'

/-- Python `s.strip()`. -/
def pyStrip (s : Str) : Str :=
  ((s.dropWhile isSpaceChar).reverse.dropWhile isSpaceChar).reverse

/-- `\d+` (greedy): one or more leading digits, returning them and the rest. -/
def matchDigits (cs : Str) : Option (Str × Str) :=
  match cs.span Char.isDigit with
  | ([], _) => none
  | (ds, rest) => some (ds, rest)

/-- Consume one expected literal character. -/
def expectChar (c : Char) : Str → Option Str
  | x :: rest => if x = c then some rest else none
  | [] => none

/-- Consume an expected literal substring. -/
def expectStr (pat : Str) (cs : Str) : Option Str :=
  if pat.isPrefixOf cs then some (cs.drop pat.length) else none

/-- `\d{2}`: exactly two digits. -/
def matchTwoDigits : Str → Option (Str × Str)
  | a :: b :: rest => if a.isDigit && b.isDigit then some ([a, b], rest) else none
  | _ => none

/-- `re.match(r'^(\d{2}:\d{2}:\d{2}\.\d+)', line)`. -/
def matchTimestamp (cs : Str) : Option Str := do
  let (hh, r1) ← matchTwoDigits cs
  let r2 ← expectChar ':' r1
  let (mm, r3) ← matchTwoDigits r2
  let r4 ← expectChar ':' r3
  let (ss, r5) ← matchTwoDigits r4
  let r6 ← expectChar '.' r5
  let (ms, _) ← matchDigits r6
  pure (hh ++ [':'] ++ mm ++ [':'] ++ ss ++ ['.'] ++ ms)

/-- `\d+\.\d+\.\d+\.\d+`. -/
def matchIpv4 (cs : Str) : Option (Str × Str) := do
  let (a, r1) ← matchDigits cs
  let r2 ← expectChar '.' r1
  let (b, r3) ← matchDigits r2
  let r4 ← expectChar '.' r3
  let (c, r5) ← matchDigits r4
  let r6 ← expectChar '.' r5
  let (d, r7) ← matchDigits r6
  pure (a ++ ['.'] ++ b ++ ['.'] ++ c ++ ['.'] ++ d, r7)

/-- Try `re.search` at every start position. -/
def searchOpt {β : Type} (f : Str → Option β) : Str → Option β
  | [] => f []
  | c :: rest =>
    match f (c :: rest) with
    | some r => some r
    | none => searchOpt f rest

/-- `IP (\d+\.\d+\.\d+\.\d+)\.(\d+) > (\d+\.\d+\.\d+\.\d+)\.(\d+):` at one position. -/
def tryIpPortAt (cs : Str) : Option (Str × Str × Str × Str) := do
  let r0 ← expectStr "IP ".toList cs
  let (src, r1) ← matchIpv4 r0
  let r2 ← expectChar '.' r1
  let (sport, r3) ← matchDigits r2
  let r4 ← expectStr " > ".toList r3
  let (dst, r5) ← matchIpv4 r4
  let r6 ← expectChar '.' r5
  let (dport, r7) ← matchDigits r6
  let _ ← expectChar ':' r7
  pure (src, sport, dst, dport)

/-- The same pattern followed by the literal ` UDP`. -/
def tryUdpAt (cs : Str) : Option (Str × Str × Str × Str) := do
  let r0 ← expectStr "IP ".toList cs
  let (src, r1) ← matchIpv4 r0
  let r2 ← expectChar '.' r1
  let (sport, r3) ← matchDigits r2
  let r4 ← expectStr " > ".toList r3
  let (dst, r5) ← matchIpv4 r4
  let r6 ← expectChar '.' r5
  let (dport, r7) ← matchDigits r6
  let r8 ← expectChar ':' r7
  let _ ← expectStr " UDP".toList r8
  pure (src, sport, dst, dport)

/-- `IP (\d+\.\d+\.\d+\.\d+) > (\d+\.\d+\.\d+\.\d+): ICMP` at one position. -/
def tryIcmpAt (cs : Str) : Option (Str × Str) := do
  let r0 ← expectStr "IP ".toList cs
  let (src, r1) ← matchIpv4 r0
  let r2 ← expectStr " > ".toList r1
  let (dst, r3) ← matchIpv4 r2
  let _ ← expectStr ": ICMP".toList r3
  pure (src, dst)

/-- `length (\d+)` at one position. -/
def tryLenAt (cs : Str) : Option Str := do
  let r0 ← expectStr "length ".toList cs
  let (ds, _) ← matchDigits r0
  pure ds

/-- Python `int` on a digit string. -/
def digitsToNat (ds : Str) : Nat :=
  ds.foldl (fun n c => n * 10 + (c.toNat - 48)) 0

/-- Python `sub in s` substring test. -/
def containsSub (pat : Str) : Str → Bool
  | [] => pat.isPrefixOf []
  | c :: rest => pat.isPrefixOf (c :: rest) || containsSub pat rest

/-- A parsed tcpdump packet record. -/
structure TPacket where
  timestamp : Str
  srcIp : Str
  srcPort : Str
  dstIp : Str
  dstPort : Str
  protocol : Str
  size : Nat
  flags : List Str
  rawLine : Str
deriving DecidableEq, Repr

/-- The TCP flag extraction of `parse_packet_line` (substring checks, in
source order SYN, ACK, FIN, RST). -/
def tcpFlags (line : Str) : List Str :=
  (if containsSub "Flags [S]".toList line then ["SYN".toList] else []) ++
  (if containsSub "Flags [.]".toList line then ["ACK".toList] else []) ++
  (if containsSub "Flags [F]".toList line then ["FIN".toList] else []) ++
  (if containsSub "Flags [R]".toList line then ["RST".toList] else [])

/-- `parse_packet_line`: timestamp anchor first, then the TCP pattern, then
the UDP pattern, then the ICMP pattern; packet size from `length (\d+)`,
defaulting to 0; flags only for the TCP branch. -/
def parsePacketLine (line : Str) : Option TPacket :=
  match matchTimestamp line with
  | none => none
  | some ts =>
    let size := match searchOpt tryLenAt line with
      | some ds => digitsToNat ds
      | none => 0
    match searchOpt tryIpPortAt line with
    | some (src, sport, dst, dport) =>
      some ⟨ts, src, sport, dst, dport, "TCP".toList, size, tcpFlags line, line⟩
    | none =>
      match searchOpt tryUdpAt line with
      | some (src, sport, dst, dport) =>
        some ⟨ts, src, sport, dst, dport, "UDP".toList, size, [], line⟩
      | none =>
        match searchOpt tryIcmpAt line with
        | some (src, dst) =>
          some ⟨ts, src, "0".toList, dst, "0".toList, "ICMP".toList, size, [], line⟩
        | none => none

/-- The `self.stats` dictionary. -/
structure TStats where
  totalPackets : Nat
  protocols : List (Str × Nat)
  hosts : List (Str × Nat)
  ports : List (Str × Nat)
  packetSizes : List Nat
  timestamps : List Str
  connections : List (Str × List TPacket)
deriving Repr

def initTStats : TStats := ⟨0, [], [], [], [], [], []⟩

/-- `defaultdict(list)` append under a key. -/
def appendAt {α : Type} (m : List (Str × List α)) (k : Str) (x : α) :
    List (Str × List α) :=
  match m with
  | [] => [(k, [x])]
  | (k', l) :: rest =>
    if k' = k then (k', l ++ [x]) :: rest else (k', l) :: appendAt rest k x

/-- `update_stats(packet_info)`. -/
def updateStats (st : TStats) (p : TPacket) : TStats :=
  { totalPackets := st.totalPackets + 1
    protocols := bump st.protocols p.protocol
    hosts := bump (bump st.hosts p.srcIp) p.dstIp
    ports :=
      (fun m => if p.dstPort ≠ "0".toList then bump m p.dstPort else m)
        (if p.srcPort ≠ "0".toList then bump st.ports p.srcPort else st.ports)
    packetSizes := st.packetSizes ++ [p.size]
    timestamps := st.timestamps ++ [p.timestamp]
    connections :=
      appendAt st.connections
        (p.srcIp ++ [':'] ++ p.srcPort ++ " -> ".toList ++ p.dstIp ++ [':'] ++ p.dstPort)
        p }

/-- Analyzer state: `self.packets` plus `self.stats`. -/
structure TDState where
  packets : List TPacket
  stats : TStats
deriving Repr

def initTDState : TDState := ⟨[], initTStats⟩

/-- One loop iteration of `parse_tcpdump_output`: blank lines are skipped,
a line that parses is appended to `self.packets` and folded into the stats,
and a line that fails to parse changes nothing. -/
def processLine (st : TDState) (line : Str) : TDState :=
  if pyStrip line = [] then st
  else
    match parsePacketLine line with
    | some p => ⟨st.packets ++ [p], updateStats st.stats p⟩
    | none => st

/-- `parse_tcpdump_output(output)` from a given state. -/
def parseTcpdumpOutput (st : TDState) (output : Str) : TDState :=
  (splitChar '\n' (pyStrip output)).foldl processLine st

/-- Sum of all counts of a counter. -/
def sumCounter {κ : Type} (m : List (κ × Nat)) : Nat :=
  (m.map (fun e => e.2)).sum

/-- `Counter.most_common(1)[0]`: the first entry (in insertion order)
achieving the maximal count, since `most_common` is a stable descending
sort. -/
def mostCommon (m : List (Str × Nat)) : Option (Str × Nat) :=
  m.foldl
    (fun acc e =>
      match acc with
      | none => some e
      | some b => if e.2 > b.2 then some e else acc)
    none

/-- The anomaly findings of `detect_anomalies`, tagged by kind. -/
inductive Anomaly where
  | highRst (n : Nat)
  | concentrated (port : Str) (n : Nat)
  | largePackets (n : Nat)
deriving DecidableEq, Repr

def isHighRst : Anomaly → Bool
  | Anomaly.highRst _ => true
  | _ => false

def isConcentrated : Anomaly → Bool
  | Anomaly.concentrated _ _ => true
  | _ => false

/-- `sum(1 for p in self.packets if 'RST' in p.get('flags', []))`. -/
def rstCount (packets : List TPacket) : Nat :=
  (packets.filter (fun p => "RST".toList ∈ p.flags)).length

/-- First block of `detect_anomalies`: `rst_packets > total * 0.1`, i.e.
exactly `10 * rst > total` over the rationals. -/
def rstFindings (st : TDState) : List Anomaly :=
  if 10 * rstCount st.packets > st.stats.totalPackets then
    [Anomaly.highRst (rstCount st.packets)]
  else []

/-- Second block of `detect_anomalies`: guarded by a non-empty ports
counter, fires when `most_common_port[1] > total * 0.5`, i.e. exactly
`2 * most > total` over the rationals. -/
def concFindings (st : TDState) : List Anomaly :=
  match mostCommon st.stats.ports with
  | some mcp =>
    if 2 * mcp.2 > st.stats.totalPackets then [Anomaly.concentrated mcp.1 mcp.2]
    else []
  | none => []

/-- Third block of `detect_anomalies`: count of sizes with
`size > avg * 2`, i.e. exactly `size * len > 2 * sum` over the rationals. -/
def sizeFindings (st : TDState) : List Anomaly :=
  if st.stats.packetSizes ≠ [] then
    let total := st.stats.packetSizes.sum
    let len := st.stats.packetSizes.length
    let large := (st.stats.packetSizes.filter (fun sz => sz * len > 2 * total)).length
    if large > 0 then [Anomaly.largePackets large] else []
  else []

/-- `detect_anomalies`: the three rule blocks, appended in source order. -/
def detectAnomalies (st : TDState) : List Anomaly :=
  rstFindings st ++ concFindings st ++ sizeFindings st

/-- The statistics-consistency invariant of the tcpdump analyzer state. -/
def statsConsistent (st : TDState) : Prop :=
  st.stats.totalPackets = st.packets.length ∧
  st.stats.totalPackets = st.stats.packetSizes.length ∧
  st.stats.totalPackets = st.stats.timestamps.length ∧
  st.stats.totalPackets = sumCounter st.stats.protocols

theorem sumCounter_bump {κ : Type} [DecidableEq κ] (m : List (κ × Nat)) (k : κ) :
    sumCounter (bump m k) = sumCounter m + 1 := by
  induction m with
  | nil => simp [bump, sumCounter]
  | cons e rest ih =>
    obtain ⟨k0, n⟩ := e
    by_cases hk : k0 = k
    · subst hk
      simp [bump, sumCounter]
      omega
    · simp [bump, sumCounter, hk]
      simp [sumCounter] at ih
      omega

theorem processLine_consistent (st : TDState) (line : Str)
    (h : statsConsistent st) : statsConsistent (processLine st line) := by
  unfold processLine
  by_cases hb : pyStrip line = []
  · simpa [hb] using h
  · rw [if_neg hb]
    cases hp : parsePacketLine line with
    | none => exact h
    | some p =>
      obtain ⟨h1, h2, h3, h4⟩ := h
      refine ⟨?_, ?_, ?_, ?_⟩ <;>
        simp [updateStats, sumCounter_bump, h1, h2, h3, h4] <;> omega

theorem processLine_skip (st : TDState) (line : Str)
    (h : parsePacketLine line = none) : processLine st line = st := by
  unfold processLine
  by_cases hb : pyStrip line = []
  · rw [if_pos hb]
  · rw [if_neg hb, h]

/-- C10: after processing any tcpdump output, `total_packets` equals the
number of stored packet records, the length of `packet_sizes`, the length of
`timestamps`, and the sum of the per-protocol counter — every parsed packet
updates each exactly once — and a line that fails to parse leaves the whole
state unchanged. -/
theorem tcpdump_stats_invariant (output : Str) :
    statsConsistent (parseTcpdumpOutput initTDState output) ∧
    ∀ (st : TDState) (line : Str), parsePacketLine line = none →
      processLine st line = st := by
  constructor
  · unfold parseTcpdumpOutput
    have aux : ∀ (lines : List Str) (st : TDState), statsConsistent st →
        statsConsistent (lines.foldl processLine st) := by
      intro lines
      induction lines with
      | nil => intro st h; exact h
      | cons l ls ih =>
        intro st h
        exact ih (processLine st l) (processLine_consistent st l h)
    exact aux _ initTDState ⟨rfl, rfl, rfl, rfl⟩
  · intro st line h
    exact processLine_skip st line h

/-- A sample tcpdump output: a TCP line, an unparseable line, an ICMP line. -/
def demoOutput : Str :=
  ("12:34:56.789 IP 1.2.3.4.80 > 5.6.7.8.443: Flags [R], length 60\n" ++
   "not a packet line\n" ++
   "12:34:56.900 IP 1.2.3.4 > 5.6.7.8: ICMP foo, length 30").toList

theorem tcpdump_stats_invariant_witness :
    statsConsistent (parseTcpdumpOutput initTDState demoOutput) ∧
    processLine initTDState "not a packet line".toList = initTDState :=
  ⟨(tcpdump_stats_invariant demoOutput).1,
   (tcpdump_stats_invariant demoOutput).2 initTDState "not a packet line".toList
     (by decide)⟩

theorem countP_conc_highRst (st : TDState) :
    (concFindings st).countP isHighRst = 0 := by
  unfold concFindings
  cases mostCommon st.stats.ports with
  | none => rfl
  | some mcp =>
    by_cases hc : 2 * mcp.2 > st.stats.totalPackets
    · simp [hc, isHighRst]
    · simp [hc]

theorem countP_size_highRst (st : TDState) :
    (sizeFindings st).countP isHighRst = 0 := by
  unfold sizeFindings
  by_cases hne : st.stats.packetSizes ≠ []
  · rw [if_pos hne]
    by_cases hl :
        ((st.stats.packetSizes.filter
          (fun sz => sz * st.stats.packetSizes.length >
            2 * st.stats.packetSizes.sum)).length) > 0
    · simp [hl, isHighRst]
    · simp [hl]
  · rw [if_neg hne]
    rfl

theorem countP_rst_conc (st : TDState) :
    (rstFindings st).countP isConcentrated = 0 := by
  unfold rstFindings
  by_cases hc : 10 * rstCount st.packets > st.stats.totalPackets
  · simp [hc, isConcentrated]
  · simp [hc]

theorem countP_size_conc (st : TDState) :
    (sizeFindings st).countP isConcentrated = 0 := by
  unfold sizeFindings
  by_cases hne : st.stats.packetSizes ≠ []
  · rw [if_pos hne]
    by_cases hl :
        ((st.stats.packetSizes.filter
          (fun sz => sz * st.stats.packetSizes.length >
            2 * st.stats.packetSizes.sum)).length) > 0
    · simp [hl, isConcentrated]
    · simp [hl]
  · rw [if_neg hne]
    rfl

theorem rst_ratio_iff (r T : Nat) (hrT : r ≤ T) :
    ((r : ℚ) / (T : ℚ) > 1 / 10) ↔ 10 * r > T := by
  rcases Nat.eq_zero_or_pos T with h0 | hpos
  · subst h0
    have hr0 : r = 0 := Nat.le_zero.mp hrT
    subst hr0
    norm_num
  · have hT : (0 : ℚ) < (T : ℚ) := by exact_mod_cast hpos
    rw [gt_iff_lt, div_lt_div_iff₀ (by norm_num) hT, one_mul]
    constructor
    · intro hh
      have hc : (T : ℚ) < ((r * 10 : Nat) : ℚ) := by push_cast; linarith
      have h2 : T < r * 10 := by exact_mod_cast hc
      omega
    · intro hh
      have h2 : T < r * 10 := by omega
      have hc : (T : ℚ) < ((r * 10 : Nat) : ℚ) := by exact_mod_cast h2
      push_cast at hc
      linarith

/-- C7: over a snapshot whose `total_packets` agrees with the stored packet
list, `detect_anomalies` emits exactly one HIGH_RESET_RATIO finding when the
RST ratio exceeds 0.10 and none otherwise. -/
theorem reset_ratio_rule (st : TDState)
    (h : st.stats.totalPackets = st.packets.length) :
    (detectAnomalies st).countP isHighRst =
      if (rstCount st.packets : ℚ) / (st.stats.totalPackets : ℚ) > 1 / 10 then 1
      else 0 := by
  have hle : rstCount st.packets ≤ st.stats.totalPackets := by
    rw [h]
    exact List.length_filter_le _ _
  unfold detectAnomalies
  rw [List.countP_append, List.countP_append, countP_conc_highRst,
    countP_size_highRst]
  have hrst : (rstFindings st).countP isHighRst =
      if 10 * rstCount st.packets > st.stats.totalPackets then 1 else 0 := by
    unfold rstFindings
    by_cases hc : 10 * rstCount st.packets > st.stats.totalPackets
    · simp [hc, isHighRst]
    · simp [hc]
  rw [hrst]
  rw [if_congr (rst_ratio_iff (rstCount st.packets) st.stats.totalPackets hle).symm
    rfl rfl]
  omega

/-- Packets used by the anomaly-rule witnesses. -/
def pktAck : TPacket :=
  ⟨"00:00:00.0".toList, "1.1.1.1".toList, "80".toList, "2.2.2.2".toList,
    "443".toList, "TCP".toList, 100, ["ACK".toList], []⟩

def pktRst : TPacket :=
  ⟨"00:00:00.0".toList, "1.1.1.1".toList, "80".toList, "2.2.2.2".toList,
    "443".toList, "TCP".toList, 100, ["RST".toList], []⟩

/-- 100 records, 15 with RST. -/
def stRst15 : TDState :=
  ⟨List.replicate 85 pktAck ++ List.replicate 15 pktRst,
   { initTStats with totalPackets := 100 }⟩

/-- 100 records, 5 with RST. -/
def stRst5 : TDState :=
  ⟨List.replicate 95 pktAck ++ List.replicate 5 pktRst,
   { initTStats with totalPackets := 100 }⟩

theorem reset_ratio_rule_witness :
    (detectAnomalies stRst15).countP isHighRst = 1 ∧
    (detectAnomalies stRst5).countP isHighRst = 0 := by
  constructor
  · have h := reset_ratio_rule stRst15 (by decide)
    have e1 : rstCount stRst15.packets = 15 := by decide
    have e2 : stRst15.stats.totalPackets = 100 := rfl
    rw [e1, e2] at h
    rw [if_pos ((rst_ratio_iff 15 100 (by decide)).mpr (by decide))] at h
    exact h
  · have h := reset_ratio_rule stRst5 (by decide)
    have e1 : rstCount stRst5.packets = 5 := by decide
    have e2 : stRst5.stats.totalPackets = 100 := rfl
    rw [e1, e2] at h
    rw [if_neg ((rst_ratio_iff 5 100 (by decide)).not.mpr (by decide))] at h
    exact h

theorem half_share_iff (n T : Nat) :
    ((n : ℚ) > (T : ℚ) * (1 / 2)) ↔ 2 * n > T := by
  rw [gt_iff_lt, mul_one_div, div_lt_iff₀ (by norm_num)]
  constructor
  · intro hh
    have hc : (T : ℚ) < ((n * 2 : Nat) : ℚ) := by push_cast; linarith
    have h2 : T < n * 2 := by exact_mod_cast hc
    omega
  · intro hh
    have h2 : T < n * 2 := by omega
    have hc : (T : ℚ) < ((n * 2 : Nat) : ℚ) := by exact_mod_cast h2
    push_cast at hc
    linarith

/-- C6 (amended): `detect_anomalies` emits exactly one CONCENTRATED_TRAFFIC
finding when the ports counter is non-empty and the occurrence count of the
single most frequent port (src and dst occurrences counted separately)
exceeds 0.50 times the total record count of the snapshot — not 0.50 times
the number of port-bearing records — and emits none otherwise. -/
theorem port_concentration_rule (st : TDState) :
    (detectAnomalies st).countP isConcentrated =
      match mostCommon st.stats.ports with
      | none => 0
      | some mcp =>
        if (mcp.2 : ℚ) > (st.stats.totalPackets : ℚ) * (1 / 2) then 1 else 0 := by
  unfold detectAnomalies
  rw [List.countP_append, List.countP_append, countP_rst_conc, countP_size_conc]
  cases hmc : mostCommon st.stats.ports with
  | none => simp [concFindings, hmc]
  | some mcp =>
    have hcf : (concFindings st).countP isConcentrated =
        if 2 * mcp.2 > st.stats.totalPackets then 1 else 0 := by
      unfold concFindings
      rw [hmc]
      by_cases hc : 2 * mcp.2 > st.stats.totalPackets
      · simp [hc, isConcentrated]
      · simp [hc]
    rw [hcf,
      if_congr (half_share_iff mcp.2 st.stats.totalPackets).symm rfl rfl]
    simp

/-- Number of records carrying at least one port — the spec notion the
claim compares the most frequent port count against.  Modelled from the
spec: the code has no such quantity; it compares against `total_packets`. -/
def specPortBearingCount (packets : List TPacket) : Nat :=
  (packets.filter (fun p => p.srcPort ≠ "0".toList ∨ p.dstPort ≠ "0".toList)).length

/-- ICMP-style packet (no ports). -/
def pktIcmp : TPacket :=
  ⟨"00:00:00.0".toList, "3.3.3.3".toList, "0".toList, "4.4.4.4".toList,
    "0".toList, "ICMP".toList, 100, [], []⟩

/-- 8 portless ICMP records and 2 TCP records on ports 80/443, with the
statistics obtained by actually folding `update_stats`. -/
def stMixed : TDState :=
  ⟨List.replicate 8 pktIcmp ++ [pktAck, pktAck],
   (List.replicate 8 pktIcmp ++ [pktAck, pktAck]).foldl updateStats initTStats⟩

/-- C6 counterexample: in `stMixed` the most frequent port accounts for 2
of 2 port-bearing records (share 1.0 > 0.50), yet `detect_anomalies` emits
no CONCENTRATED_TRAFFIC finding, because the code compares against
`total_packets` (10), not against the number of port-bearing records. -/
theorem port_concentration_counterexample :
    mostCommon stMixed.stats.ports = some ("80".toList, 2) ∧
    specPortBearingCount stMixed.packets = 2 ∧
    ((2 : ℚ) > (2 : ℚ) * (1 / 2)) ∧
    (detectAnomalies stMixed).countP isConcentrated = 0 :=
  ⟨by decide, by decide, (half_share_iff 2 2).mpr (by decide), by decide⟩

/-!
## tshark analyzer (src/scripts/tshark-analyzer.py)

`analyze_packets` first tries `json.loads` on the whole (stripped) payload,
wrapping a non-list result in a one-element list; on a parse failure it
falls back to parsing the payload line by line, skipping blank lines and
lines that fail to parse.  Each resulting record is then folded through
`_analyze_packet`.  The external stdlib `json.loads` is modeled by a small
executable JSON parser over character lists (integers only for numbers, the
common escape characters, no \\u escapes — the subset the analyzer's inputs
use); a parse returns `none` exactly when the text is not a single JSON
document with nothing but whitespace around it.
-/

/-- A JSON document. -/
inductive Json where
  | null
  | bool (b : Bool)
  | num (n : Int)
  | str (s : Str)
  | arr (elems : List Json)
  | obj (fields : List (Str × Json))

def lbrace : Char := Char.ofNat 123

def rbrace : Char := Char.ofNat 125

def quoteChar : Char := Char.ofNat 34

def backslashChar : Char := Char.ofNat 92

def skipWs : Str → Str
  | c :: rest => if isSpaceChar c then skipWs rest else c :: rest
  | [] => []

def escChar (c : Char) : Char :=
  if c = 'n' then '\n'
  else if c = 't' then '\t'
  else if c = 'r' then '\r'
  else if c = 'b' then '\x08'
  else if c = 'f' then '\x0c'
  else c

/-- Parse a JSON string body (after the opening quote), handling escapes. -/
def parseStringBody : Str → Option (Str × Str)
  | [] => none
  | c :: rest =>
    if c = quoteChar then some ([], rest)
    else if c = backslashChar then
      match rest with
      | [] => none
      | e :: rest2 => (parseStringBody rest2).map (fun pr => (escChar e :: pr.1, pr.2))
    else (parseStringBody rest).map (fun pr => (c :: pr.1, pr.2))

/-- Parse an optionally signed integer literal. -/
def parseNumber (cs : Str) : Option (Int × Str) :=
  match cs with
  | [] => none
  | c :: rest =>
    if c = '-' then (matchDigits rest).map (fun pr => (-(digitsToNat pr.1 : Int), pr.2))
    else (matchDigits cs).map (fun pr => ((digitsToNat pr.1 : Int), pr.2))

/-- Parser mode: a value, the tail of an array, or the tail of an object. -/
inductive PMode where
  | val
  | arrBody (first : Bool) (acc : List Json)
  | objBody (first : Bool) (acc : List (Str × Json))

/-- Recursive-descent JSON parser, structurally recursive on fuel. -/
def parseJ : Nat → PMode → Str → Option (Json × Str)
  | 0, _, _ => none
  | fuel + 1, PMode.val, cs =>
    match skipWs cs with
    | [] => none
    | c :: rest =>
      if c = quoteChar then
        (parseStringBody rest).map (fun pr => (Json.str pr.1, pr.2))
      else if c = lbrace then
        parseJ fuel (PMode.objBody true []) rest
      else if c = '[' then
        parseJ fuel (PMode.arrBody true []) rest
      else if "true".toList.isPrefixOf (c :: rest) then
        some (Json.bool true, (c :: rest).drop 4)
      else if "false".toList.isPrefixOf (c :: rest) then
        some (Json.bool false, (c :: rest).drop 5)
      else if "null".toList.isPrefixOf (c :: rest) then
        some (Json.null, (c :: rest).drop 4)
      else
        (parseNumber (c :: rest)).map (fun pr => (Json.num pr.1, pr.2))
  | fuel + 1, PMode.arrBody first acc, cs =>
    match skipWs cs with
    | [] => none
    | c :: rest =>
      if first ∧ c = ']' then some (Json.arr acc.reverse, rest)
      else
        match parseJ fuel PMode.val (c :: rest) with
        | none => none
        | some (v, r1) =>
          match skipWs r1 with
          | ',' :: r2 => parseJ fuel (PMode.arrBody false (v :: acc)) r2
          | ']' :: r2 => some (Json.arr (v :: acc).reverse, r2)
          | _ => none
  | fuel + 1, PMode.objBody first acc, cs =>
    match skipWs cs with
    | [] => none
    | c :: rest =>
      if first ∧ c = rbrace then some (Json.obj acc.reverse, rest)
      else if c = quoteChar then
        match parseStringBody rest with
        | none => none
        | some (key, r1) =>
          match skipWs r1 with
          | ':' :: r2 =>
            match parseJ fuel PMode.val r2 with
            | none => none
            | some (v, r3) =>
              match skipWs r3 with
              | ',' :: r4 => parseJ fuel (PMode.objBody false ((key, v) :: acc)) r4
              | d :: r4 =>
                if d = rbrace then some (Json.obj ((key, v) :: acc).reverse, r4)
                else none
              | [] => none
          | _ => none
      else none

/-- Model of `json.loads`: a whole-text parse, `none` on any failure. -/
def jsonLoads (s : Str) : Option Json :=
  match parseJ (2 * s.length + 2) PMode.val s with
  | some (v, rest) => if skipWs rest = [] then some v else none
  | none => none

/-- The tshark `analysis` dict (the aggregate fields `_analyze_packet`
mutates, with the error list modeled by its length). -/
structure TsAnalysis where
  totalPackets : Nat
  protocols : List (Str × Nat)
  hosts : List (Str × Nat)
  ports : List (Str × Nat)
  packetSizes : List Nat
  timestamps : List Str
  errors : Nat

def initTsAnalysis : TsAnalysis := ⟨0, [], [], [], [], [], 0⟩

/-- Association lookup in a JSON object. -/
def objGet (fields : List (Str × Json)) (k : Str) : Option Json :=
  match fields with
  | [] => none
  | (k', v) :: rest => if k' = k then some v else objGet rest k

def asObj : Json → Option (List (Str × Json))
  | Json.obj fs => some fs
  | _ => none

/-- `packet.get('_source', {}).get('layers', {})` when `'_source' in packet`
else `packet.get('layers', {})`; `none` models the exception raised on
non-dict values (caught by `_analyze_packet` and recorded as an error). -/
def frameInfoOf (packet : Json) : Option Json :=
  match packet with
  | Json.obj fs =>
    match objGet fs "_source".toList with
    | some src =>
      match src with
      | Json.obj sfs => some ((objGet sfs "layers".toList).getD (Json.obj []))
      | _ => none
    | none => some ((objGet fs "layers".toList).getD (Json.obj []))
  | _ => none

/-- Protocol section of `_analyze_packet`: split `frame.protocols` on `:`
and count each non-empty name.  `Except.error` carries the
analysis-so-far when the section raises (type mismatch), matching Python's
in-place mutation then exception. -/
def protoSection (fifs : List (Str × Json)) (a : TsAnalysis) :
    Except TsAnalysis TsAnalysis :=
  match objGet fifs "frame".toList with
  | none => Except.ok a
  | some fv =>
    match asObj fv with
    | none => Except.error a
    | some ffs =>
      match (objGet ffs "frame.protocols".toList).getD (Json.str []) with
      | Json.str s =>
        Except.ok { a with
          protocols :=
            (splitChar ':' s).foldl (fun m p => if p = [] then m else bump m p)
              a.protocols }
      | _ => Except.error a

/-- Host section: count `ip.src` and `ip.dst` when truthy. -/
def hostSection (fifs : List (Str × Json)) (a : TsAnalysis) :
    Except TsAnalysis TsAnalysis :=
  match objGet fifs "ip".toList with
  | none => Except.ok a
  | some v =>
    match asObj v with
    | none => Except.error a
    | some ifs =>
      match (objGet ifs "ip.src".toList).getD (Json.str []),
          (objGet ifs "ip.dst".toList).getD (Json.str []) with
      | Json.str s, Json.str d =>
        Except.ok { a with
          hosts :=
            (fun m => if d ≠ [] then bump m d else m)
              (if s ≠ [] then bump a.hosts s else a.hosts) }
      | _, _ => Except.error a

/-- Port section: TCP ports preferred, else UDP ports, each counted under a
`TCP:`/`UDP:`-prefixed key. -/
def portSection (fifs : List (Str × Json)) (a : TsAnalysis) :
    Except TsAnalysis TsAnalysis :=
  match objGet fifs "tcp".toList with
  | some v =>
    match asObj v with
    | none => Except.error a
    | some tfs =>
      match (objGet tfs "tcp.srcport".toList).getD (Json.str []),
          (objGet tfs "tcp.dstport".toList).getD (Json.str []) with
      | Json.str s, Json.str d =>
        Except.ok { a with
          ports :=
            (fun m => if d ≠ [] then bump m ("TCP:".toList ++ d) else m)
              (if s ≠ [] then bump a.ports ("TCP:".toList ++ s) else a.ports) }
      | _, _ => Except.error a
  | none =>
    match objGet fifs "udp".toList with
    | none => Except.ok a
    | some v =>
      match asObj v with
      | none => Except.error a
      | some ufs =>
        match (objGet ufs "udp.srcport".toList).getD (Json.str []),
            (objGet ufs "udp.dstport".toList).getD (Json.str []) with
        | Json.str s, Json.str d =>
          Except.ok { a with
            ports :=
              (fun m => if d ≠ [] then bump m ("UDP:".toList ++ d) else m)
                (if s ≠ [] then bump a.ports ("UDP:".toList ++ s) else a.ports) }
        | _, _ => Except.error a

/-- Size section: `int(frame.len)` appended; a `ValueError` on a non-digit
string is swallowed (`pass`), a non-string raises. -/
def sizeSection (fifs : List (Str × Json)) (a : TsAnalysis) :
    Except TsAnalysis TsAnalysis :=
  match objGet fifs "frame".toList with
  | none => Except.ok a
  | some fv =>
    match asObj fv with
    | none => Except.error a
    | some ffs =>
      match (objGet ffs "frame.len".toList).getD (Json.str "0".toList) with
      | Json.str s =>
        if s ≠ [] ∧ s.all Char.isDigit then
          Except.ok { a with packetSizes := a.packetSizes ++ [digitsToNat s] }
        else Except.ok a
      | _ => Except.error a

/-- Timestamp section: `frame.time` appended when truthy. -/
def timeSection (fifs : List (Str × Json)) (a : TsAnalysis) :
    Except TsAnalysis TsAnalysis :=
  match objGet fifs "frame".toList with
  | none => Except.ok a
  | some fv =>
    match asObj fv with
    | none => Except.error a
    | some ffs =>
      match (objGet ffs "frame.time".toList).getD (Json.str []) with
      | Json.str s =>
        if s ≠ [] then Except.ok { a with timestamps := a.timestamps ++ [s] }
        else Except.ok a
      | _ => Except.error a

/-- `_analyze_packet`: run the five sections in source order; an exception
stops the remaining sections, keeps the updates already made, and appends
one entry to the error list. -/
def tsAnalyzeOne (a : TsAnalysis) (packet : Json) : TsAnalysis :=
  let run : Except TsAnalysis TsAnalysis := do
    let fi ← match frameInfoOf packet with
      | some fi => Except.ok fi
      | none => Except.error a
    let fifs ← match asObj fi with
      | some fifs => Except.ok fifs
      | none => Except.error a
    let a1 ← protoSection fifs a
    let a2 ← hostSection fifs a1
    let a3 ← portSection fifs a2
    let a4 ← sizeSection fifs a3
    timeSection fifs a4
  match run with
  | Except.ok a' => a'
  | Except.error ap => { ap with errors := ap.errors + 1 }

/-- One fallback line: skipped when blank, else `json.loads`. -/
def lineParse (line : Str) : Option Json :=
  if pyStrip line = [] then none else jsonLoads line

/-- The `packets` list built by `analyze_packets`: whole-payload JSON parse
first (wrapping a non-list document in a singleton list), newline-delimited
fallback on failure, skipping lines that fail to parse. -/
def ingestPackets (payload : Str) : List Json :=
  match jsonLoads (pyStrip payload) with
  | some (Json.arr l) => l
  | some v => [v]
  | none => (splitChar '\n' (pyStrip payload)).filterMap lineParse

/-- `analyze_packets`: `none` models the error dict returned for an empty
payload; otherwise `total_packets` is the number of ingested records and
every record is folded through `_analyze_packet`. -/
def analyzePackets (payload : Str) : Option TsAnalysis :=
  if pyStrip payload = [] then none
  else
    some ((ingestPackets payload).foldl tsAnalyzeOne
      { initTsAnalysis with totalPackets := (ingestPackets payload).length })

/-- C8: ingestion first attempts a whole-payload JSON parse (wrapping a
non-array document in a one-element list) and only on failure falls back to
newline-delimited parsing; in per-line mode a line that fails to parse is
skipped — contributing nothing, wherever it sits — without aborting the
run, and every remaining parseable record is still analyzed. -/
theorem dual_encoding_ingestion (payload : Str) :
    (∀ v, jsonLoads (pyStrip payload) = some v →
      ingestPackets payload = (match v with | Json.arr l => l | _ => [v])) ∧
    (jsonLoads (pyStrip payload) = none →
      ingestPackets payload =
        (splitChar '\n' (pyStrip payload)).filterMap lineParse) ∧
    (∀ (ls1 ls2 : List Str) (bad : Str), lineParse bad = none →
      (ls1 ++ bad :: ls2).filterMap lineParse = (ls1 ++ ls2).filterMap lineParse) ∧
    (pyStrip payload ≠ [] →
      analyzePackets payload =
        some ((ingestPackets payload).foldl tsAnalyzeOne
          { initTsAnalysis with totalPackets := (ingestPackets payload).length })) := by
  refine ⟨?_, ?_, ?_, ?_⟩
  · intro v h
    unfold ingestPackets
    rw [h]
    cases v <;> rfl
  · intro h
    unfold ingestPackets
    rw [h]
  · intro ls1 ls2 bad hbad
    simp [List.filterMap_append, List.filterMap_cons, hbad]
  · intro h
    unfold analyzePackets
    rw [if_neg h]

/-- A payload that only parses line by line, with an unparseable middle
line. -/
def demoPayload : Str :=
  ("\x7b\"a\": 1\x7d\n" ++ "not json\n" ++ "[2]").toList

theorem dual_encoding_ingestion_witness :
    ingestPackets demoPayload =
      [Json.obj [("a".toList, Json.num 1)], Json.arr [Json.num 2]] ∧
    (["\x7b\"a\": 1\x7d".toList] ++ "not json".toList :: ["[2]".toList]).filterMap
        lineParse =
      (["\x7b\"a\": 1\x7d".toList] ++ ["[2]".toList]).filterMap lineParse := by
  have h := dual_encoding_ingestion demoPayload
  refine ⟨?_, h.2.2.1 ["\x7b\"a\": 1\x7d".toList] ["[2]".toList]
    "not json".toList (by rfl)⟩
  rw [h.2.1 (by rfl)]
  rfl

/-!
## Wireshark aggregation and report serialization

`analyze_packets` (wireshark-analyzer.py) accumulates the aggregates below
per packet; `generate_report` then serializes the whole `analysis` dict via
`json.dump(analysis, f, indent=2, default=str)`.  Python's stdlib
`json.dump` (an external collaborator) is documented to raise `TypeError`
for dict keys that are not str, int, float, bool or None (`default` applies
only to values), and the `conversations` dict is keyed by tuples
(`tuple(sorted([src, dst]))`), so serialization fails whenever at least one
conversation was recorded.  `dumpAnalysis` models exactly that: `none` for
a tuple-keyed (non-empty) conversations dict, otherwise the structured
document.
-/

/-- The `packet_info` fields consumed by the wireshark aggregates. -/
structure WPacket where
  timestamp : Str
  length : Nat
  protocols : Str
  srcIp : Str
  dstIp : Str
deriving DecidableEq, Repr

/-- The wireshark `analysis` aggregates (the timing/error/security
sub-dicts, which are string-keyed and irrelevant to the claims, are
omitted). -/
structure WAnalysis where
  totalPackets : Nat
  totalBytes : Nat
  protocols : List (Str × Nat)
  endpoints : List (Str × Nat)
  conversations : List ((Str × Str) × Nat)
  topTalkers : List (Str × Nat)
  hierarchy : PHier

/-- `m[k] = m.get(k, 0) + n` (top-talkers add the packet length). -/
def bumpBy {κ : Type} [DecidableEq κ] (m : List (κ × Nat)) (k : κ) (n : Nat) :
    List (κ × Nat) :=
  match m with
  | [] => [(k, n)]
  | (k', v) :: rest =>
    if k' = k then (k', v + n) :: rest else (k', v) :: bumpBy rest k n

/-- The per-packet aggregation step of `analyze_packets`. -/
def wStep (a : WAnalysis) (p : WPacket) : WAnalysis :=
  let stack := protoSplit p.protocols
  { a with
    totalBytes := a.totalBytes + p.length
    protocols := stack.foldl (fun m pr => if pr = [] then m else bump m pr) a.protocols
    endpoints :=
      (fun m => if p.dstIp ≠ [] then bump m p.dstIp else m)
        (if p.srcIp ≠ [] then bump a.endpoints p.srcIp else a.endpoints)
    conversations := convUpdate a.conversations p.srcIp p.dstIp
    topTalkers :=
      if p.srcIp ≠ [] then bumpBy a.topTalkers p.srcIp p.length else a.topTalkers
    hierarchy := updatePH a.hierarchy stack }

/-- `analyze_packets`: `total_packets = len(packets)` up front, then one
aggregation step per packet. -/
def wAnalyze (ps : List WPacket) : WAnalysis :=
  ps.foldl wStep
    { totalPackets := ps.length, totalBytes := 0, protocols := [],
      endpoints := [], conversations := [], topTalkers := [], hierarchy := [] }

/-- A name-to-count dict as a JSON object. -/
def natObj (m : List (Str × Nat)) : Json :=
  Json.obj (m.map (fun e => (e.1, Json.num e.2)))

/-- `json.dump` applied to the `analysis` dict: raises `TypeError`
(modeled by `none`) as soon as the tuple-keyed `conversations` dict has an
entry, since `default=str` does not apply to keys; otherwise the structured
document. -/
def dumpAnalysis (a : WAnalysis) : Option Json :=
  if a.conversations = [] then
    some (Json.obj
      [("total_packets".toList, Json.num a.totalPackets),
       ("total_bytes".toList, Json.num a.totalBytes),
       ("protocols".toList, natObj a.protocols),
       ("endpoints".toList, natObj a.endpoints),
       ("conversations".toList, Json.obj [])])
  else none

/-- Field access in a parsed report document. -/
def getField (d : Json) (k : Str) : Option Json :=
  (asObj d).bind (fun fs => objGet fs k)

/-- Integer field of a parsed report document. -/
def readNum (d : Json) (k : Str) : Option Int :=
  match getField d k with
  | some (Json.num n) => some n
  | _ => none

/-- When serialization does succeed (no conversation was recorded), the
document reproduces the aggregate counts exactly. -/
theorem dump_roundtrip_on_success (a : WAnalysis) (d : Json)
    (h : dumpAnalysis a = some d) :
    readNum d "total_packets".toList = some a.totalPackets ∧
    readNum d "total_bytes".toList = some a.totalBytes ∧
    getField d "protocols".toList = some (natObj a.protocols) ∧
    getField d "endpoints".toList = some (natObj a.endpoints) := by
  unfold dumpAnalysis at h
  by_cases hc : a.conversations = []
  · rw [if_pos hc] at h
    have hd := Option.some_inj.mp h
    subst hd
    refine ⟨?_, ?_, ?_, ?_⟩ <;>
      simp +decide [readNum, getField, asObj, objGet]
  · rw [if_neg hc] at h
    exact absurd h (by simp)

/-- A record with both endpoints present. -/
def demoWPacket : WPacket :=
  ⟨"t0".toList, 60, "eth:ip:tcp".toList, "10.0.0.1".toList, "10.0.0.2".toList⟩

/-- C9: evaluating the code at the failing input — one ingested record with
both `src_ip` and `dst_ip` present records a conversation under a tuple
key, and `json.dump(analysis, ..., default=str)` then raises `TypeError`
(keys must be str/int/float/bool/None; `default` does not apply to keys),
so the report is never serialized, contradicting the round-trip claim. -/
theorem report_serialization_failure :
    (wAnalyze [demoWPacket]).conversations =
      [(("10.0.0.1".toList, "10.0.0.2".toList), 1)] ∧
    dumpAnalysis (wAnalyze [demoWPacket]) = none := by
  constructor
  · decide
  · rfl

end NetSpec
